import Mathlib

/-!
Verification of the Interviewbotwithvideo proctoring core against its
natural-language specification.

The development shallowly embeds the pieces of the repository that the
claims concern:

* `extractViolations` / `processViolations` — the violation parser and the
  confidence gate of `MultimodalLiveClient` (lib/multimodalLiveClient.ts).
* `middleware` — the per-IP edge rate limiter (middleware.ts).
* `ClientState` / `clientStep` — the frame queue, throttle controller and
  connection state machine of `MultimodalLiveClient`, modelled as a labelled
  transition system whose events are the suspension points of the
  single-threaded JavaScript execution.
* `providerSendConfig` / `providerDisconnect` / `captureFrame` — the React
  provider and capture-component wrappers (LiveAPIContext.tsx,
  VideoProctor.tsx).

Strings are modelled as `List Char`; machine integers as `Nat`/`Int`;
`Date.now()` values are explicit `Nat` parameters; remote calls are recorded
rather than performed.
-/

/-- The character class of JavaScript's `\s` (WhiteSpace ∪ LineTerminator),
used by the regex `\s*` and by `String.prototype.trim`. -/
def jsSpace (c : Char) : Bool :=
  c = ' ' || c = '\t' || c = '\n' || c = '\r' || c = '\x0b' || c = '\x0c' ||
  c = '\u00A0' || c = '\u1680' ||
  (0x2000 <= c.toNat && c.toNat <= 0x200A) ||
  c = '\u2028' || c = '\u2029' || c = '\u202F' || c = '\u205F' ||
  c = '\u3000' || c = '\uFEFF'

/-- JavaScript `String.prototype.trim`: strip leading and trailing `\s`. -/
def jsTrim (cs : List Char) : List Char :=
  ((cs.dropWhile jsSpace).reverse.dropWhile jsSpace).reverse

/-- The fixed marker literal of the violation regex
`/PROCTORING_VIOLATION:\s*([^\n]+)/g`. -/
def marker : List Char := "PROCTORING_VIOLATION:".toList

/-- Match the tail `\s*([^\n]+)` of the violation regex at the start of
`cs`, returning the capture and the remainder of the input after the match.
`\s*` is greedy with backtracking: if everything after the literal is
whitespace, the engine backs off to the last non-`'\n'` whitespace
character and captures exactly it. -/
def matchTail (cs : List Char) : Option (List Char × List Char) :=
  let rest := cs.dropWhile jsSpace
  if rest.isEmpty then
    match cs.reverse.dropWhile (fun c => c = '\n') with
    | [] => none
    | c :: _ => some ([c], cs.reverse.takeWhile (fun c => c = '\n'))
  else
    some (rest.takeWhile (fun c => c ≠ '\n'), rest.dropWhile (fun c => c ≠ '\n'))

/-- One step of the exec loop of `extractViolations`, with explicit fuel so
that the recursion is structural: at a position where the marker literal
matches and the regex tail matches after it, record the capture and resume
after the match; otherwise advance one character. -/
def scanAux : Nat → List Char → List (List Char)
  | 0, _ => []
  | _, [] => []
  | fuel + 1, c :: cs =>
    if marker.isPrefixOf (c :: cs) then
      match matchTail ((c :: cs).drop marker.length) with
      | some (cap, rest) => cap :: scanAux fuel rest
      | none => scanAux fuel cs
    else
      scanAux fuel cs

/-- The exec loop of `extractViolations`: scan the text left to right and
return the list of regex captures in order of appearance. The fuel
`text.length` is always sufficient because every step consumes at least one
character. -/
def scanViolations (text : List Char) : List (List Char) :=
  scanAux text.length text

/-- A structured proctoring alert, as produced by `extractViolations`.
`timestamp` abstracts the `new Date().toISOString()` creation time. -/
structure ViolationEvent where
  type : List Char
  timestamp : Nat
  confidence : ℚ
  details : List Char
deriving DecidableEq, Repr

/-- `MultimodalLiveClient.extractViolations`: run the global regex
`/PROCTORING_VIOLATION:\s*([^\n]+)/g` over `text` and build one event per
match, with `type` the trimmed capture, a fixed default confidence of 0.9
and the whole source text as `details`. `now` stands for the event-creation
time. -/
def extractViolations (text : List Char) (now : Nat) : List ViolationEvent :=
  (scanViolations text).map fun cap =>
    { type := jsTrim cap
      timestamp := now
      confidence := 9 / 10
      details := text }

/-- One fragment of a model response (`parts` entry, optional `text`). -/
structure ResponsePart where
  text : Option (List Char)
deriving DecidableEq, Repr

/-- The `content` object of a response candidate. -/
structure ResponseContent where
  parts : List ResponsePart
deriving DecidableEq, Repr

/-- One `candidates` entry of a model response (optional `content`). -/
structure ResponseCandidate where
  content : Option ResponseContent
deriving DecidableEq, Repr

/-- A model response as consumed by `processViolations`. -/
structure GeminiResponse where
  candidates : List ResponseCandidate
deriving DecidableEq, Repr

/-- The default `confidenceThreshold` of `MultimodalLiveClient` (0.7). -/
def confidenceThreshold : ℚ := 7 / 10

/-- All violations parsed from a response before confidence filtering:
`extractViolations` applied to the `text` of every part of the first
candidate's content, in part order. -/
def parsedViolations (resp : GeminiResponse) (now : Nat) : List ViolationEvent :=
  match resp.candidates.head? with
  | none => []
  | some cand =>
    match cand.content with
    | none => []
    | some content =>
      (content.parts.filterMap (fun p => p.text)).flatMap
        (fun t => extractViolations t now)

/-- `MultimodalLiveClient.processViolations`: the list of violation events
emitted to subscribers for one response — every parsed violation whose
confidence reaches `threshold`, in parse order. -/
def processViolations (resp : GeminiResponse) (now : Nat) (threshold : ℚ) :
    List ViolationEvent :=
  (parsedViolations resp now).filter fun v => threshold ≤ v.confidence

/-- One input line as seen by the parser: either a well-formed marker line
`PROCTORING_VIOLATION:<category>` or a line with no marker in it. -/
inductive LineSpec where
  | markerLine (cat : List Char)
  | plainLine (content : List Char)
deriving DecidableEq, Repr

/-- Render one line back to text. -/
def renderLine : LineSpec → List Char
  | .markerLine cat => marker ++ cat
  | .plainLine l => l

/-- Join lines with `'\n'` separators (no trailing newline). -/
def renderText : List LineSpec → List Char
  | [] => []
  | [l] => renderLine l
  | l₁ :: l₂ :: ls => renderLine l₁ ++ '\n' :: renderText (l₂ :: ls)

/-- Well-formedness of a line: a marker line has a single-line category with
at least one non-whitespace character; a plain line contains no occurrence
of the marker and no newline. -/
def wfLine : LineSpec → Prop
  | .markerLine cat => '\n' ∉ cat ∧ (∃ c ∈ cat, jsSpace c = false)
  | .plainLine l => ¬ marker <:+: l ∧ '\n' ∉ l

instance : DecidablePred wfLine := fun l => by
  cases l <;> (unfold wfLine; infer_instance)

/-- The category texts of the marker lines, in source order. -/
def markerCats : List LineSpec → List (List Char)
  | [] => []
  | .markerLine cat :: ls => cat :: markerCats ls
  | .plainLine _ :: ls => markerCats ls

/-- The spec's example parser input, as lines. -/
def c1DemoLines : List LineSpec :=
  [LineSpec.markerLine " Looking Away".toList,
   LineSpec.markerLine " Multiple Faces Detected".toList]

/-- Per-address throttling state (`{ count, resetTime }` in `middleware.ts`). -/
structure RateLimitEntry where
  count : Nat
  resetTime : Nat
deriving DecidableEq, Repr

/-- `rateLimit.windowMs` (one minute). -/
def windowMs : Nat := 60000

/-- `rateLimit.max` (requests per IP per window). -/
def maxRequests : Nat := 100

/-- The module-level `ipRequestMap`, modelled as an association list with
JavaScript `Map` replace-or-append update semantics. -/
abbrev IpRequestMap := List (String × RateLimitEntry)

/-- JavaScript `Map.set` / `Headers.set` on an association list: replace
the entry of an existing key in place (keys are unique), else append. -/
def assocSet {β : Type} : List (String × β) → String → β → List (String × β)
  | [], k, v => [(k, v)]
  | (k', v') :: t, k, v =>
    if k' = k then (k, v) :: t else (k', v') :: assocSet t k v

/-- `ipRequestMap.set(ip, entry)`. -/
def mapSet (m : IpRequestMap) (k : String) (v : RateLimitEntry) : IpRequestMap :=
  assocSet m k v

/-- An HTTP response as far as the middleware claims observe it: the status
code, the response headers, and the `retryAfter` field of the JSON body of a
`429` rejection. -/
structure MwResponse where
  status : Nat
  headers : List (String × String)
  retryAfterBody : Option Nat
deriving DecidableEq, Repr

/-- `headers.set(name, value)`. -/
def setHeader (hs : List (String × String)) (k v : String) :
    List (String × String) :=
  assocSet hs k v

/-- The `Content-Security-Policy` value set by the middleware. -/
def cspValue : String :=
  "default-src \x27self\x27; script-src \x27self\x27 \x27unsafe-inline\x27 \x27unsafe-eval\x27; style-src \x27self\x27 \x27unsafe-inline\x27; img-src \x27self\x27 blob: data:; media-src \x27self\x27 blob:; connect-src \x27self\x27 wss://generativelanguage.googleapis.com https://generativelanguage.googleapis.com; frame-ancestors \x27none\x27; form-action \x27self\x27; base-uri \x27self\x27"

/-- The fixed security headers the middleware sets on every pass-through
response before any rate-limit logic runs. -/
def securityHeaders : List (String × String) :=
  [("X-DNS-Prefetch-Control", "on"),
   ("Strict-Transport-Security", "max-age=31536000; includeSubDomains"),
   ("X-Frame-Options", "SAMEORIGIN"),
   ("X-Content-Type-Options", "nosniff"),
   ("Referrer-Policy", "origin-when-cross-origin"),
   ("Permissions-Policy", "camera=(self), microphone=(self), geolocation=()"),
   ("Content-Security-Policy", cspValue)]

/-- `request.nextUrl.pathname.startsWith('/api/')`. -/
def pathIsApi (path : String) : Bool :=
  "/api/".toList.isPrefixOf path.toList

/-- Set the three informational rate-limit headers from the entry the
middleware re-reads after updating the map. -/
def applyRateHeaders (hs : List (String × String)) (entry : RateLimitEntry) :
    List (String × String) :=
  setHeader (setHeader (setHeader hs
    "X-RateLimit-Limit" (toString maxRequests))
    "X-RateLimit-Remaining" (toString ((maxRequests : Int) - (entry.count : Int))))
    "X-RateLimit-Reset" (toString ((entry.resetTime + 999) / 1000))

/-- The pass-through response: security headers, then the rate-limit
headers read back from the updated map (`ipRequestMap.get(ip)!`), then
`Server-Timing` (zero duration: the two `Date.now()` calls coincide in the
model). -/
def passResponse (m' : IpRequestMap) (ip : String) : MwResponse :=
  { status := 200
    headers := setHeader
      (applyRateHeaders securityHeaders ((m'.lookup ip).getD ⟨0, 0⟩))
      "Server-Timing" "total;dur=0"
    retryAfterBody := none }

/-- The early-returned `429` rejection: a fresh `NextResponse` whose only
headers are `Content-Type` and `Retry-After`. -/
def rejectResponse (retryAfter : Nat) : MwResponse :=
  { status := 429
    headers := [("Content-Type", "application/json"),
                ("Retry-After", toString retryAfter)]
    retryAfterBody := some retryAfter }

/-- `middleware(request)` from `middleware.ts` at one request: inputs are
the current `ipRequestMap`, the request path, `request.ip` (`none` selects
the `'127.0.0.1'` fallback) and `Date.now()`; output is the updated map and
the response. -/
def middleware (m : IpRequestMap) (path : String) (reqIp : Option String)
    (now : Nat) : IpRequestMap × MwResponse :=
  if pathIsApi path then
    let ip := reqIp.getD "127.0.0.1"
    match m.lookup ip with
    | none =>
      let m' := mapSet m ip ⟨1, now + windowMs⟩
      (m', passResponse m' ip)
    | some data =>
      if data.resetTime < now then
        let m' := mapSet m ip ⟨1, now + windowMs⟩
        (m', passResponse m' ip)
      else if maxRequests ≤ data.count then
        (m, rejectResponse ((data.resetTime - now + 999) / 1000))
      else
        let m' := mapSet m ip ⟨data.count + 1, data.resetTime⟩
        (m', passResponse m' ip)
  else
    (m, { status := 200
          headers := setHeader securityHeaders "Server-Timing" "total;dur=0"
          retryAfterBody := none })

/-- The map after `n` requests with path `path`, source address `reqIp`,
the `i`-th request arriving at `times i`, starting from an empty map. -/
def mwRunAux (path : String) (reqIp : Option String) (times : Nat → Nat) :
    Nat → IpRequestMap
  | 0 => []
  | n + 1 => (middleware (mwRunAux path reqIp times n) path reqIp (times n)).1

/-- The response to the `n`-th request (0-indexed) of the run. -/
def mwRespN (path : String) (reqIp : Option String) (times : Nat → Nat)
    (n : Nat) : MwResponse :=
  (middleware (mwRunAux path reqIp times n) path reqIp (times n)).2

/-- The concrete run behind the C6 counterexample: requests from one
address, all at time 0, against the middleware starting from an empty map. -/
def c6Run : Nat → IpRequestMap
  | 0 => []
  | n + 1 => (middleware (c6Run n) "/api/gemini" (some "1.2.3.4") 0).1

/-- The base64 payload extraction of `sendVideoFrame`:
`frameData.slice(frameData.indexOf(',') + 1)` (the whole string when no
comma occurs, since `indexOf` returns `-1`). -/
def extractImageData (frameData : List Char) : List Char :=
  match frameData.findIdx? (fun c => c = ',') with
  | some i => frameData.drop (i + 1)
  | none => frameData

/-- `analysisInterval` of `MultimodalLiveClient` (ms). -/
def analysisInterval : Nat := 2000

/-- The mutable state of a `MultimodalLiveClient`, extended with the
instrumentation the claims observe: `calls` records the image payload of
every remote analysis request started, in order, and `inFlight` counts the
analysis calls currently awaiting their response. -/
structure ClientState where
  connected : Bool
  lastAnalysisTime : Nat
  frameQueue : List (List Char)
  processingFrames : Bool
  inFlight : Nat
  calls : List (List Char)
deriving DecidableEq, Repr

/-- The state of a freshly constructed client. -/
def initialClientState : ClientState :=
  { connected := false, lastAnalysisTime := 0, frameQueue := [],
    processingFrames := false, inFlight := 0, calls := [] }

/-- The synchronous body of `processFrameQueue` up to its suspension point:
early-return if busy or the queue is empty; otherwise `pop()` the most
recent frame and clear the queue, and if the cadence gate
`shouldAnalyzeFrame` passes (`now - lastAnalysisTime >= analysisInterval`),
stamp `lastAnalysisTime` and start the remote analysis call, leaving
`processingFrames` true until that call completes; if the gate fails, the
popped frame is dropped and `processingFrames` is reset to false with the
queue left empty. -/
def startQueueProcessing (s : ClientState) (now : Nat) : ClientState :=
  if s.processingFrames || s.frameQueue.isEmpty then s
  else
    match s.frameQueue.getLast? with
    | none => s
    | some frame =>
      if analysisInterval ≤ now - s.lastAnalysisTime then
        { s with processingFrames := true, frameQueue := [],
                 lastAnalysisTime := now,
                 inFlight := s.inFlight + 1,
                 calls := s.calls ++ [frame] }
      else
        { s with processingFrames := false, frameQueue := [] }

/-- `sendVideoFrame(frameData)`: push the frame onto the queue, then run
`processFrameQueue` unless one is already running. No connection check is
performed. -/
def clientSendVideoFrame (s : ClientState) (frameData : List Char)
    (now : Nat) : ClientState :=
  let s1 := { s with
    frameQueue := s.frameQueue ++ [extractImageData frameData] }
  if s1.processingFrames then s1 else startQueueProcessing s1 now

/-- The in-flight analysis call resolving (the `await` inside
`processFrameQueue` returning, on success or error): the `finally` block
clears `processingFrames` and drains the queue once, which may start at
most one further analysis call. A completion with nothing in flight is a
no-op. -/
def completeAnalysis (s : ClientState) (now : Nat) : ClientState :=
  if s.inFlight = 0 then s
  else
    startQueueProcessing
      { s with inFlight := s.inFlight - 1, processingFrames := false } now

/-- The events of the client at the suspension points of its
single-threaded execution: `connect()` resolving (successfully or not),
`disconnect()`, a `sendVideoFrame` invocation, and an in-flight analysis
completing. -/
inductive ClientEv where
  | connectOk (now : Nat)
  | connectFail (now : Nat)
  | disconnect
  | submit (frameData : List Char) (now : Nat)
  | complete (now : Nat)
deriving DecidableEq, Repr

/-- The state transition of one event. -/
def clientStep (s : ClientState) : ClientEv → ClientState
  | .connectOk _ => { s with connected := true }
  | .connectFail _ => s
  | .disconnect => { s with connected := false }
  | .submit frameData now => clientSendVideoFrame s frameData now
  | .complete now => completeAnalysis s now

/-- The client state reached from a fresh client by a sequence of events. -/
def clientRun (evs : List ClientEv) : ClientState :=
  evs.foldl clientStep initialClientState

/-- The signals a client or provider emits to subscribers. -/
inductive ClientSignal where
  | openSig
  | closeSig
  | configSig (payload : List Char)
  | warnSig
deriving DecidableEq, Repr

/-- `MultimodalLiveClient.disconnect()`: unconditionally set
`connected = false` and emit a `close` signal. -/
def clientDisconnect (s : ClientState) : ClientState × List ClientSignal :=
  ({ s with connected := false }, [ClientSignal.closeSig])

/-- `MultimodalLiveClient.sendConfig(config)`: log and emit the `config`
event with the payload, unconditionally. -/
def clientSendConfig (s : ClientState) (config : List Char) :
    ClientState × List ClientSignal :=
  (s, [ClientSignal.configSig config])

/-- `LiveAPIProvider.sendConfig`: forward to the client only when a client
exists and `isConnected()`; otherwise log a warning. -/
def providerSendConfig (client : Option ClientState) (config : List Char) :
    List ClientSignal :=
  match client with
  | some c =>
    if c.connected then (clientSendConfig c config).2
    else [ClientSignal.warnSig]
  | none => [ClientSignal.warnSig]

/-- `LiveAPIProvider.disconnect`: call the client's `disconnect()` only
when a client exists and `isConnected()`. -/
def providerDisconnect (client : Option ClientState) :
    Option ClientState × List ClientSignal :=
  match client with
  | some c =>
    if c.connected then (some (clientDisconnect c).1, (clientDisconnect c).2)
    else (some c, [])
  | none => (none, [])

/-- `VideoProctor.captureFrame`: submit a captured frame to the client, or
do nothing (`none`) when there is no video element, no client, the
provider is not connected, or no frame data was captured. -/
def captureFrame (videoPresent : Bool) (client : Option ClientState)
    (connected : Bool) (frameData : Option (List Char)) (now : Nat) :
    Option ClientState :=
  if !videoPresent then none
  else
    match client with
    | none => none
    | some c =>
      if !connected then none
      else
        match frameData with
        | none => none
        | some fd => some (clientSendVideoFrame c fd now)

/-- The in-flight invariant: at most one analysis call is outstanding, and
while one is outstanding `processingFrames` is held true. -/
def InFlightInv (s : ClientState) : Prop :=
  s.inFlight ≤ 1 ∧ (s.inFlight = 1 → s.processingFrames = true)

/-- The concrete event prefix used by the C3 witness: one eligible frame
submission, which starts an analysis that is still in flight. -/
def c3DemoEvs : List ClientEv := [ClientEv.submit ['a'] 2000]

/-- The rapid-succession submissions of the C3 witness. -/
def c3DemoSubs : List (List Char × Nat) :=
  [(['b'], 2100), (['c'], 2200), (['d'], 2300)]

/-- The state behind the C4 counterexample: one frame analyzed at time
2000, its analysis completed at 2100 — idle, empty queue,
`lastAnalysisTime = 2000`. -/
def c4State : ClientState :=
  clientRun [ClientEv.submit ['a'] 2000, ClientEv.complete 2100]

theorem isPrefixOf_true_iff (l1 l2 : List Char) :
    l1.isPrefixOf l2 = true ↔ l1 <+: l2 :=
  List.isPrefixOf_iff_prefix

theorem length_dropWhile_le (p : Char → Bool) (l : List Char) :
    (l.dropWhile p).length ≤ l.length := by
  induction l with
  | nil => simp [List.dropWhile]
  | cons x t ih =>
    by_cases hx : p x
    · simp only [List.dropWhile, hx, List.length_cons]
      omega
    · simp only [List.dropWhile, hx, List.length_cons]
      omega

theorem length_takeWhile_le (p : Char → Bool) (l : List Char) :
    (l.takeWhile p).length ≤ l.length := by
  induction l with
  | nil => simp [List.takeWhile]
  | cons x t ih =>
    by_cases hx : p x
    · simp only [List.takeWhile, hx, List.length_cons]
      omega
    · simp only [List.takeWhile, hx, List.length_cons, List.length_nil]
      omega

theorem matchTail_length_le (cs cap rest : List Char)
    (h : matchTail cs = some (cap, rest)) : rest.length ≤ cs.length := by
  unfold matchTail at h
  by_cases he : (cs.dropWhile jsSpace).isEmpty
  · simp only [he, if_true] at h
    cases hb : cs.reverse.dropWhile (fun c => c = '\n') with
    | nil => rw [hb] at h; exact absurd h (by simp)
    | cons c t =>
      rw [hb] at h
      have hr : rest = cs.reverse.takeWhile (fun c => c = '\n') := by
        simpa using congrArg (fun o => (o.map Prod.snd).getD []) h.symm
      rw [hr]
      calc (cs.reverse.takeWhile (fun c => c = '\n')).length
          ≤ cs.reverse.length := length_takeWhile_le _ _
        _ = cs.length := cs.length_reverse
  · simp only [he, if_false] at h
    have hr : rest = (cs.dropWhile jsSpace).dropWhile (fun c => c ≠ '\n') := by
      simpa using congrArg (fun o => (o.map Prod.snd).getD []) h.symm
    rw [hr]
    calc ((cs.dropWhile jsSpace).dropWhile (fun c => c ≠ '\n')).length
        ≤ (cs.dropWhile jsSpace).length := length_dropWhile_le _ _
      _ ≤ cs.length := length_dropWhile_le _ _

theorem scanAux_congr :
    ∀ fuel fuel' cs, cs.length ≤ fuel → cs.length ≤ fuel' →
      scanAux fuel cs = scanAux fuel' cs := by
  intro fuel
  induction fuel with
  | zero =>
    intro fuel' cs h _
    have : cs = [] := List.length_eq_zero.mp (Nat.le_zero.mp h)
    subst this
    cases fuel' <;> rfl
  | succ fuel ih =>
    intro fuel' cs h h'
    cases cs with
    | nil => cases fuel' <;> rfl
    | cons c cs =>
      cases fuel' with
      | zero => exact absurd h' (by simp)
      | succ fuel' =>
        simp only [scanAux]
        have hlen : cs.length ≤ fuel := by
          simpa using Nat.lt_succ_iff.mp (Nat.lt_of_lt_of_le (by simp) h)
        have hlen' : cs.length ≤ fuel' := by
          simpa using Nat.lt_succ_iff.mp (Nat.lt_of_lt_of_le (by simp) h')
        by_cases hpre : marker.isPrefixOf (c :: cs)
        · simp only [hpre, if_true]
          cases hmt : matchTail ((c :: cs).drop marker.length) with
          | none => exact ih fuel' cs hlen hlen'
          | some pr =>
            obtain ⟨cap, rest⟩ := pr
            have hrest : rest.length ≤ cs.length := by
              have h1 := matchTail_length_le _ _ _ hmt
              have h3 : marker.length = 21 := rfl
              simp only [List.length_drop, List.length_cons, h3] at h1
              omega
            exact congrArg (cap :: ·)
              (ih fuel' rest (hrest.trans hlen) (hrest.trans hlen'))
        · simp only [hpre, if_false]
          exact ih fuel' cs hlen hlen'

theorem scanViolations_nil : scanViolations [] = [] := rfl

theorem scanViolations_cons_match (c : Char) (cs cap rest : List Char)
    (hpre : marker.isPrefixOf (c :: cs) = true)
    (hmt : matchTail ((c :: cs).drop marker.length) = some (cap, rest)) :
    scanViolations (c :: cs) = cap :: scanViolations rest := by
  have hrest : rest.length ≤ cs.length := by
    have h1 := matchTail_length_le _ _ _ hmt
    have h3 : marker.length = 21 := rfl
    simp only [List.length_drop, List.length_cons, h3] at h1
    omega
  show scanAux (cs.length + 1) (c :: cs) = cap :: scanViolations rest
  simp only [scanAux, hpre, if_true, hmt]
  exact congrArg (cap :: ·) (scanAux_congr _ _ _ hrest le_rfl)

theorem scanViolations_cons_skipHead (c : Char) (cs : List Char)
    (hpre : marker.isPrefixOf (c :: cs) = false) :
    scanViolations (c :: cs) = scanViolations cs := by
  show scanAux (cs.length + 1) (c :: cs) = scanViolations cs
  simp only [scanAux, hpre, if_false]
  rfl

theorem scanViolations_cons_skip_tail (c : Char) (cs : List Char)
    (hmt : matchTail ((c :: cs).drop marker.length) = none) :
    scanViolations (c :: cs) = scanViolations cs := by
  show scanAux (cs.length + 1) (c :: cs) = scanViolations cs
  by_cases hpre : marker.isPrefixOf (c :: cs)
  · simp only [scanAux, hpre, if_true, hmt]
    rfl
  · simp only [Bool.not_eq_true] at hpre
    simp only [scanAux, hpre, if_false]
    rfl

theorem dropWhile_idem (p : Char → Bool) (l : List Char) :
    (l.dropWhile p).dropWhile p = l.dropWhile p := by
  induction l with
  | nil => rfl
  | cons x t ih =>
    by_cases hx : p x
    · simpa [List.dropWhile_cons, hx] using ih
    · simp [List.dropWhile_cons, hx]

theorem jsTrim_dropWhile (l : List Char) :
    jsTrim (l.dropWhile jsSpace) = jsTrim l := by
  unfold jsTrim
  rw [dropWhile_idem]

theorem marker_not_prefix_of_head (c : Char) (cs : List Char) (h : c ≠ 'P') :
    marker.isPrefixOf (c :: cs) = false := by
  rw [Bool.eq_false_iff]
  intro hb
  obtain ⟨t, ht⟩ := isPrefixOf_true_iff _ _ |>.mp hb
  rw [show marker = 'P' :: "ROCTORING_VIOLATION:".toList from rfl] at ht
  simp only [List.cons_append, List.cons.injEq] at ht
  exact h ht.1.symm

theorem marker_prefix_append_newline (l rest : List Char)
    (h : marker <+: (l ++ '\n' :: rest)) : marker <+: l := by
  rcases le_or_lt marker.length l.length with hle | hlt
  · rw [List.prefix_iff_eq_take, List.take_append_eq_append_take,
      Nat.sub_eq_zero_of_le hle, List.take_zero, List.append_nil] at h
    rw [h]
    exact List.take_prefix _ _
  · exfalso
    rw [List.prefix_iff_eq_take, List.take_append_eq_append_take,
      List.take_of_length_le (Nat.le_of_lt hlt)] at h
    obtain ⟨k, hk⟩ : ∃ k, marker.length - l.length = k + 1 :=
      ⟨marker.length - l.length - 1, by omega⟩
    rw [hk, List.take_succ_cons] at h
    have hmem : '\n' ∈ marker := by
      rw [h]
      exact List.mem_append_right _ (List.mem_cons_self _ _)
    exact absurd hmem (by decide)

theorem scanViolations_plain_middle (l rest : List Char) (h : ¬ marker <:+: l) :
    scanViolations (l ++ '\n' :: rest) = scanViolations rest := by
  induction l with
  | nil =>
    rw [List.nil_append,
      scanViolations_cons_skipHead _ _ (marker_not_prefix_of_head _ _ (by decide))]
  | cons x l ih =>
    have hx : ¬ marker <:+: l := fun hinf => h (List.infix_cons hinf)
    rw [List.cons_append]
    by_cases hpre : marker.isPrefixOf (x :: (l ++ '\n' :: rest)) = true
    · exact absurd
        ((marker_prefix_append_newline (x :: l) rest
          (isPrefixOf_true_iff _ _ |>.mp hpre)).isInfix) h
    · rw [scanViolations_cons_skipHead _ _ (Bool.eq_false_iff.mpr hpre)]
      exact ih hx

theorem scanViolations_no_marker (l : List Char) (h : ¬ marker <:+: l) :
    scanViolations l = [] := by
  induction l with
  | nil => rfl
  | cons x l ih =>
    have hx : ¬ marker <:+: l := fun hinf => h (List.infix_cons hinf)
    by_cases hpre : marker.isPrefixOf (x :: l) = true
    · exact absurd (isPrefixOf_true_iff _ _ |>.mp hpre).isInfix h
    · rw [scanViolations_cons_skipHead _ _ (Bool.eq_false_iff.mpr hpre)]
      exact ih hx

theorem dropWhile_append_of_exists (p : Char → Bool) (l r : List Char)
    (h : ∃ c ∈ l, p c = false) :
    (l ++ r).dropWhile p = l.dropWhile p ++ r := by
  induction l with
  | nil => simp at h
  | cons x l ih =>
    by_cases hx : p x
    · obtain ⟨c, hc, hpc⟩ := h
      have hl : ∃ c ∈ l, p c = false := by
        rcases List.mem_cons.mp hc with rfl | hcl
        · rw [hx] at hpc; cases hpc
        · exact ⟨c, hcl, hpc⟩
      simp [List.cons_append, List.dropWhile_cons, hx, ih hl]
    · simp [List.cons_append, List.dropWhile_cons, hx]

theorem takeWhile_append_cons (p : Char → Bool) (l : List Char) (y : Char)
    (r : List Char) (hl : ∀ c ∈ l, p c = true) (hy : p y = false) :
    (l ++ y :: r).takeWhile p = l := by
  induction l with
  | nil => simp [List.takeWhile_cons, hy]
  | cons x l ih =>
    have hx := hl x (List.mem_cons_self _ _)
    simp [List.takeWhile_cons, hx,
      ih (fun c hc => hl c (List.mem_cons_of_mem _ hc))]

theorem dropWhile_append_cons (p : Char → Bool) (l : List Char) (y : Char)
    (r : List Char) (hl : ∀ c ∈ l, p c = true) (hy : p y = false) :
    (l ++ y :: r).dropWhile p = y :: r := by
  induction l with
  | nil => simp [List.dropWhile_cons, hy]
  | cons x l ih =>
    have hx := hl x (List.mem_cons_self _ _)
    simp [List.dropWhile_cons, hx,
      ih (fun c hc => hl c (List.mem_cons_of_mem _ hc))]

theorem matchTail_append_newline (cat rest : List Char) (hnl : '\n' ∉ cat)
    (hns : ∃ c ∈ cat, jsSpace c = false) :
    matchTail (cat ++ '\n' :: rest)
      = some (cat.dropWhile jsSpace, '\n' :: rest) := by
  have h1 : (cat ++ '\n' :: rest).dropWhile jsSpace
      = cat.dropWhile jsSpace ++ '\n' :: rest :=
    dropWhile_append_of_exists _ _ _ hns
  have hdw : ∀ c ∈ cat.dropWhile jsSpace, (decide (c ≠ '\n')) = true := by
    intro c hc
    have hmem : c ∈ cat := (List.dropWhile_sublist _).subset hc
    rw [decide_eq_true_eq]
    exact fun heq => hnl (heq ▸ hmem)
  have hny : (decide (('\n' : Char) ≠ '\n')) = false := by decide
  unfold matchTail
  rw [h1]
  rw [if_neg (by simp [List.isEmpty_iff])]
  rw [takeWhile_append_cons _ _ _ _ hdw hny, dropWhile_append_cons _ _ _ _ hdw hny]

theorem matchTail_no_newline (cat : List Char) (hnl : '\n' ∉ cat)
    (hns : ∃ c ∈ cat, jsSpace c = false) :
    matchTail cat = some (cat.dropWhile jsSpace, []) := by
  have hdw : ∀ c ∈ cat.dropWhile jsSpace, (decide (c ≠ '\n')) = true := by
    intro c hc
    have hmem : c ∈ cat := (List.dropWhile_sublist _).subset hc
    rw [decide_eq_true_eq]
    exact fun heq => hnl (heq ▸ hmem)
  have hne : (cat.dropWhile jsSpace).isEmpty = false := by
    rw [List.isEmpty_eq_false]
    intro h0
    obtain ⟨c, hc, hpc⟩ := hns
    have := List.dropWhile_eq_nil_iff.mp h0 c hc
    rw [this] at hpc
    cases hpc
  unfold matchTail
  rw [if_neg (by simp [hne])]
  rw [List.takeWhile_eq_self_iff.mpr hdw, List.dropWhile_eq_nil_iff.mpr hdw]

theorem scanViolations_marker_middle (cat rest : List Char) (hnl : '\n' ∉ cat)
    (hns : ∃ c ∈ cat, jsSpace c = false) :
    scanViolations ((marker ++ cat) ++ '\n' :: rest)
      = cat.dropWhile jsSpace :: scanViolations rest := by
  have hform : (marker ++ cat) ++ '\n' :: rest
      = 'P' :: ("ROCTORING_VIOLATION:".toList ++ (cat ++ '\n' :: rest)) := by
    rw [List.append_assoc]; rfl
  have hpre : marker.isPrefixOf
      ('P' :: ("ROCTORING_VIOLATION:".toList ++ (cat ++ '\n' :: rest))) = true :=
    isPrefixOf_true_iff _ _ |>.mpr (List.prefix_append marker (cat ++ '\n' :: rest))
  have hdrop : ('P' :: ("ROCTORING_VIOLATION:".toList
      ++ (cat ++ '\n' :: rest))).drop marker.length = cat ++ '\n' :: rest :=
    List.drop_left marker (cat ++ '\n' :: rest)
  have hmt : matchTail (('P' :: ("ROCTORING_VIOLATION:".toList
      ++ (cat ++ '\n' :: rest))).drop marker.length)
      = some (cat.dropWhile jsSpace, '\n' :: rest) := by
    rw [hdrop]
    exact matchTail_append_newline cat rest hnl hns
  rw [hform, scanViolations_cons_match _ _ _ _ hpre hmt,
    scanViolations_cons_skipHead _ _ (marker_not_prefix_of_head _ _ (by decide))]

theorem scanViolations_marker_last (cat : List Char) (hnl : '\n' ∉ cat)
    (hns : ∃ c ∈ cat, jsSpace c = false) :
    scanViolations (marker ++ cat) = [cat.dropWhile jsSpace] := by
  have hform : marker ++ cat = 'P' :: ("ROCTORING_VIOLATION:".toList ++ cat) := rfl
  have hpre : marker.isPrefixOf ('P' :: ("ROCTORING_VIOLATION:".toList ++ cat)) = true :=
    isPrefixOf_true_iff _ _ |>.mpr (List.prefix_append marker cat)
  have hmt : matchTail (('P' :: ("ROCTORING_VIOLATION:".toList ++ cat)).drop marker.length)
      = some (cat.dropWhile jsSpace, []) := by
    have hdrop : ('P' :: ("ROCTORING_VIOLATION:".toList ++ cat)).drop marker.length = cat :=
      List.drop_left marker cat
    rw [hdrop]
    exact matchTail_no_newline cat hnl hns
  rw [hform, scanViolations_cons_match _ _ _ _ hpre hmt, scanViolations_nil]

theorem scanViolations_renderText (ls : List LineSpec)
    (hwf : ∀ l ∈ ls, wfLine l) :
    scanViolations (renderText ls)
      = (markerCats ls).map (fun cat => cat.dropWhile jsSpace) := by
  induction ls with
  | nil => rfl
  | cons l ls ih =>
    cases ls with
    | nil =>
      cases l with
      | markerLine cat =>
        obtain ⟨hnl, hns⟩ := hwf _ (List.mem_cons_self _ _)
        simpa [renderText, renderLine, markerCats] using
          scanViolations_marker_last cat hnl hns
      | plainLine p =>
        obtain ⟨hm, -⟩ := hwf _ (List.mem_cons_self _ _)
        simpa [renderText, renderLine, markerCats] using
          scanViolations_no_marker p hm
    | cons l₂ ls₂ =>
      have hwf' : ∀ x ∈ l₂ :: ls₂, wfLine x := fun x hx =>
        hwf x (List.mem_cons_of_mem _ hx)
      cases l with
      | markerLine cat =>
        obtain ⟨hnl, hns⟩ := hwf _ (List.mem_cons_self _ _)
        rw [show renderText (.markerLine cat :: l₂ :: ls₂)
            = (marker ++ cat) ++ '\n' :: renderText (l₂ :: ls₂) from rfl,
          scanViolations_marker_middle cat _ hnl hns, ih hwf']
        simp [markerCats]
      | plainLine p =>
        obtain ⟨hm, -⟩ := hwf _ (List.mem_cons_self _ _)
        rw [show renderText (.plainLine p :: l₂ :: ls₂)
            = p ++ '\n' :: renderText (l₂ :: ls₂) from rfl,
          scanViolations_plain_middle p _ hm, ih hwf']
        simp [markerCats]

/-- C1: for input text made of lines whose marker lines are well-formed
`PROCTORING_VIOLATION: <category>` lines, `extractViolations` returns
exactly one event per marker line, in source order, each `type` equal to the
category trimmed of surrounding whitespace; input containing no marker at
all yields the empty list. -/
theorem extractViolations_marker_multiplicity (ls : List LineSpec) (now : Nat)
    (hwf : ∀ l ∈ ls, wfLine l) :
    (extractViolations (renderText ls) now).map (fun v => v.type)
        = (markerCats ls).map jsTrim
    ∧ (extractViolations (renderText ls) now).length = (markerCats ls).length
    ∧ (∀ t : List Char, ¬ marker <:+: t → extractViolations t now = []) := by
  have hscan := scanViolations_renderText ls hwf
  unfold extractViolations
  rw [hscan]
  refine ⟨?_, by simp, ?_⟩
  · rw [List.map_map, List.map_map]
    exact List.map_congr_left fun cat _ => jsTrim_dropWhile cat
  · intro t ht
    rw [scanViolations_no_marker t ht]
    rfl

theorem extractViolations_marker_multiplicity_witness :
    (∀ l ∈ c1DemoLines, wfLine l)
    ∧ ((extractViolations (renderText c1DemoLines) 0).map (fun v => v.type)
          = (markerCats c1DemoLines).map jsTrim
      ∧ (extractViolations (renderText c1DemoLines) 0).length
          = (markerCats c1DemoLines).length
      ∧ (∀ t : List Char, ¬ marker <:+: t → extractViolations t 0 = [])) :=
  ⟨by decide, extractViolations_marker_multiplicity c1DemoLines 0 (by decide)⟩

/-- C5: the confidence gate of `processViolations`. An event parsed from the
response whose confidence is below the threshold is never emitted (count 0
in the emitted list); one at or above the threshold is emitted exactly as
often as it was parsed (in particular, a violation parsed once is emitted
exactly once). -/
theorem processViolations_confidence_gate (resp : GeminiResponse) (now : Nat)
    (threshold : ℚ) (v : ViolationEvent) :
    (processViolations resp now threshold).count v
      = if threshold ≤ v.confidence then (parsedViolations resp now).count v
        else 0 := by
  unfold processViolations
  by_cases hc : threshold ≤ v.confidence
  · rw [if_pos hc]
    exact List.count_filter (by simpa using hc)
  · rw [if_neg hc]
    rw [List.count_eq_zero]
    intro hmem
    exact hc (by simpa using (List.mem_filter.mp hmem).2)

/-- C10: a request with no discernible client address is keyed under the
fixed fallback `127.0.0.1` — the middleware behaves identically to a
request from `127.0.0.1`, so all address-less requests share one
`RateLimitEntry` and one combined quota: two consecutive address-less
requests in a fresh window leave a single fallback entry with count 2. -/
theorem middleware_missing_ip_fallback (m : IpRequestMap) (path : String)
    (now : Nat) :
    middleware m path none now = middleware m path (some "127.0.0.1") now
    ∧ (middleware (middleware [] "/api/a" none 0).1 "/api/b" none 1).1.lookup
        "127.0.0.1" = some ⟨2, 60000⟩
    ∧ ((middleware (middleware [] "/api/a" none 0).1 "/api/b" none 1).1.map
        Prod.fst = ["127.0.0.1"]) := by
  refine ⟨rfl, by decide, by decide⟩

theorem middleware_api_fresh (path ip : String) (now : Nat)
    (hApi : pathIsApi path = true) :
    middleware [] path (some ip) now
      = ([(ip, ⟨1, now + windowMs⟩)],
         passResponse [(ip, ⟨1, now + windowMs⟩)] ip) := by
  unfold middleware mapSet
  simp [hApi, List.lookup, assocSet]

theorem middleware_api_pass (path ip : String) (now k r : Nat)
    (hApi : pathIsApi path = true) (hwin : ¬ r < now) (hk : k < maxRequests) :
    middleware [(ip, ⟨k, r⟩)] path (some ip) now
      = ([(ip, ⟨k + 1, r⟩)], passResponse [(ip, ⟨k + 1, r⟩)] ip) := by
  unfold middleware mapSet
  simp [hApi, List.lookup, hwin, Nat.not_le.mpr hk, assocSet]

theorem middleware_api_reject (path ip : String) (now k r : Nat)
    (hApi : pathIsApi path = true) (hwin : ¬ r < now) (hk : maxRequests ≤ k) :
    middleware [(ip, ⟨k, r⟩)] path (some ip) now
      = ([(ip, ⟨k, r⟩)], rejectResponse ((r - now + 999) / 1000)) := by
  unfold middleware
  simp [hApi, List.lookup, hwin, hk]

theorem middleware_api_stale (path ip : String) (now k r : Nat)
    (hApi : pathIsApi path = true) (hwin : r < now) :
    middleware [(ip, ⟨k, r⟩)] path (some ip) now
      = ([(ip, ⟨1, now + windowMs⟩)],
         passResponse [(ip, ⟨1, now + windowMs⟩)] ip) := by
  unfold middleware mapSet
  simp [hApi, List.lookup, hwin, assocSet]

theorem mwRun_state (path ip : String) (times : Nat → Nat)
    (hApi : pathIsApi path = true)
    (hbound : ∀ i, i ≤ 100 → times 0 ≤ times i ∧ times i ≤ times 0 + windowMs) :
    ∀ k, 1 ≤ k → k ≤ 100 →
      mwRunAux path (some ip) times k = [(ip, ⟨k, times 0 + windowMs⟩)] := by
  intro k
  induction k with
  | zero => omega
  | succ k ih =>
    intro _ hk
    rcases Nat.eq_zero_or_pos k with rfl | hkpos
    · show (middleware [] path (some ip) (times 0)).1 = _
      rw [middleware_api_fresh path ip (times 0) hApi]
    · have hstate := ih hkpos (by omega)
      show (middleware (mwRunAux path (some ip) times k) path (some ip) (times k)).1 = _
      rw [hstate]
      have hwin : ¬ (times 0 + windowMs) < times k :=
        Nat.not_lt.mpr (hbound k (by omega)).2
      rw [middleware_api_pass path ip (times k) k (times 0 + windowMs) hApi hwin
        (by unfold maxRequests; omega)]

/-- C2: the rate-limiter boundary for one client address and a fresh
window. With `max = 100`: the first 100 requests all pass; the 101st
request inside the window is rejected with status 429 and a body
`retryAfter` of at most the window duration in seconds; the entry's count
never exceeds the maximum within the window; and a request arriving after
the window's reset time passes again with the count reset to 1. -/
theorem rateLimiter_boundary (path ip : String) (times : Nat → Nat)
    (hApi : pathIsApi path = true)
    (hbound : ∀ i, i ≤ 100 → times 0 ≤ times i ∧ times i ≤ times 0 + windowMs) :
    (∀ k, k < 100 → (mwRespN path (some ip) times k).status = 200)
    ∧ (mwRespN path (some ip) times 100).status = 429
    ∧ (∃ retry, (mwRespN path (some ip) times 100).retryAfterBody = some retry
        ∧ retry ≤ windowMs / 1000)
    ∧ (∀ k, k ≤ 100 → ∀ e,
        (mwRunAux path (some ip) times (k + 1)).lookup ip = some e
          → e.count ≤ maxRequests)
    ∧ (∀ t', times 0 + windowMs < t' →
        (middleware (mwRunAux path (some ip) times 101) path (some ip) t').2.status
            = 200
        ∧ (middleware (mwRunAux path (some ip) times 101) path (some ip) t').1.lookup
            ip = some ⟨1, t' + windowMs⟩) := by
  have hstate := mwRun_state path ip times hApi hbound
  have hwin : ∀ i, i ≤ 100 → ¬ (times 0 + windowMs) < times i := fun i hi =>
    Nat.not_lt.mpr (hbound i hi).2
  have hresp100 : mwRespN path (some ip) times 100
      = rejectResponse ((times 0 + windowMs - times 100 + 999) / 1000) := by
    show (middleware (mwRunAux path (some ip) times 100) path (some ip)
      (times 100)).2 = _
    rw [hstate 100 (by omega) (by omega),
      middleware_api_reject path ip (times 100) 100 (times 0 + windowMs) hApi
        (hwin 100 (by omega)) (by unfold maxRequests; omega)]
  have hs101 : mwRunAux path (some ip) times 101
      = [(ip, ⟨100, times 0 + windowMs⟩)] := by
    show (middleware (mwRunAux path (some ip) times 100) path (some ip)
      (times 100)).1 = _
    rw [hstate 100 (by omega) (by omega),
      middleware_api_reject path ip (times 100) 100 (times 0 + windowMs) hApi
        (hwin 100 (by omega)) (by unfold maxRequests; omega)]
  refine ⟨?_, ?_, ?_, ?_, ?_⟩
  · intro k hk
    rcases Nat.eq_zero_or_pos k with rfl | hkpos
    · show (middleware (mwRunAux path (some ip) times 0) path (some ip)
        (times 0)).2.status = 200
      rw [show mwRunAux path (some ip) times 0 = [] from rfl,
        middleware_api_fresh path ip (times 0) hApi]
      rfl
    · show (middleware (mwRunAux path (some ip) times k) path (some ip)
        (times k)).2.status = 200
      rw [hstate k hkpos (by omega),
        middleware_api_pass path ip (times k) k (times 0 + windowMs) hApi
          (hwin k (by omega)) (by unfold maxRequests; omega)]
      rfl
  · rw [hresp100]
    rfl
  · refine ⟨(times 0 + windowMs - times 100 + 999) / 1000, ?_, ?_⟩
    · rw [hresp100]
      rfl
    · have h0 := (hbound 100 (by omega)).1
      have hnum : times 0 + windowMs - times 100 + 999 ≤ 60999 := by
        unfold windowMs at *
        omega
      calc (times 0 + windowMs - times 100 + 999) / 1000
          ≤ 60999 / 1000 := Nat.div_le_div_right hnum
        _ = windowMs / 1000 := by norm_num [windowMs]
  · intro k hk e he
    rcases Nat.lt_or_ge k 100 with hk99 | hk100
    · rw [hstate (k + 1) (by omega) (by omega)] at he
      simp [List.lookup] at he
      rw [← he]
      show k + 1 ≤ maxRequests
      unfold maxRequests
      omega
    · have hkeq : k = 100 := by omega
      subst hkeq
      rw [hs101] at he
      simp [List.lookup] at he
      rw [← he]
      exact Nat.le_refl 100
  · intro t' ht'
    rw [hs101,
      middleware_api_stale path ip t' 100 (times 0 + windowMs) hApi ht']
    exact ⟨rfl, by simp [List.lookup]⟩

theorem rateLimiter_boundary_witness :
    (pathIsApi "/api/gemini" = true
      ∧ (∀ i, i ≤ 100 → (fun _ => 0) 0 ≤ (fun _ => 0) i
          ∧ (fun _ => 0) i ≤ (fun _ => 0) 0 + windowMs))
    ∧ ((∀ k, k < 100 →
          (mwRespN "/api/gemini" (some "1.2.3.4") (fun _ => 0) k).status = 200)
      ∧ (mwRespN "/api/gemini" (some "1.2.3.4") (fun _ => 0) 100).status = 429
      ∧ (∃ retry, (mwRespN "/api/gemini" (some "1.2.3.4") (fun _ => 0)
            100).retryAfterBody = some retry ∧ retry ≤ windowMs / 1000)
      ∧ (∀ k, k ≤ 100 → ∀ e,
          (mwRunAux "/api/gemini" (some "1.2.3.4") (fun _ => 0) (k + 1)).lookup
            "1.2.3.4" = some e → e.count ≤ maxRequests)
      ∧ (∀ t', (fun _ => 0 : Nat → Nat) 0 + windowMs < t' →
          (middleware (mwRunAux "/api/gemini" (some "1.2.3.4") (fun _ => 0) 101)
            "/api/gemini" (some "1.2.3.4") t').2.status = 200
          ∧ (middleware (mwRunAux "/api/gemini" (some "1.2.3.4") (fun _ => 0) 101)
              "/api/gemini" (some "1.2.3.4") t').1.lookup "1.2.3.4"
              = some ⟨1, t' + windowMs⟩)) :=
  ⟨⟨by decide, fun i _ => ⟨Nat.le_refl 0, Nat.zero_le _⟩⟩,
   rateLimiter_boundary "/api/gemini" "1.2.3.4" (fun _ => 0) (by decide)
     (fun i _ => ⟨Nat.le_refl 0, Nat.zero_le _⟩)⟩

theorem lookup_assocSet_self {β : Type} (t : List (String × β)) (k : String)
    (v : β) : (assocSet t k v).lookup k = some v := by
  induction t with
  | nil => simp [assocSet, List.lookup]
  | cons p t ih =>
    rcases p with ⟨pk, pv⟩
    by_cases hp : pk = k
    · subst hp
      simp [assocSet, List.lookup]
    · have hb : (k == pk) = false := beq_eq_false_iff_ne.mpr (Ne.symm hp)
      simp [assocSet, List.lookup, hp, hb, ih]

theorem lookup_assocSet_other {β : Type} (t : List (String × β)) (k : String)
    (v : β) (k' : String) (hne : k' ≠ k) :
    (assocSet t k v).lookup k' = t.lookup k' := by
  induction t with
  | nil =>
    have hb : (k' == k) = false := beq_eq_false_iff_ne.mpr hne
    simp [assocSet, List.lookup, hb]
  | cons p t ih =>
    rcases p with ⟨pk, pv⟩
    by_cases hp : pk = k
    · subst hp
      have hb : (k' == pk) = false := beq_eq_false_iff_ne.mpr hne
      simp [assocSet, List.lookup, hb]
    · simp [assocSet, List.lookup, hp, ih]

theorem lookup_setHeader_self (hs : List (String × String)) (k v : String) :
    (setHeader hs k v).lookup k = some v :=
  lookup_assocSet_self hs k v

theorem lookup_setHeader_other (hs : List (String × String)) (k v k' : String)
    (hne : k' ≠ k) : (setHeader hs k v).lookup k' = hs.lookup k' :=
  lookup_assocSet_other hs k v k' hne

theorem passResponse_headers (m' : IpRequestMap) (ip : String) :
    (((passResponse m' ip).headers.lookup "X-RateLimit-Limit").isSome = true)
    ∧ (((passResponse m' ip).headers.lookup "X-RateLimit-Remaining").isSome = true)
    ∧ (((passResponse m' ip).headers.lookup "X-RateLimit-Reset").isSome = true) := by
  unfold passResponse applyRateHeaders
  refine ⟨?_, ?_, ?_⟩
  · rw [lookup_setHeader_other _ _ _ _ (by decide),
      lookup_setHeader_other _ _ _ _ (by decide),
      lookup_setHeader_other _ _ _ _ (by decide), lookup_setHeader_self]
    rfl
  · rw [lookup_setHeader_other _ _ _ _ (by decide),
      lookup_setHeader_other _ _ _ _ (by decide), lookup_setHeader_self]
    rfl
  · rw [lookup_setHeader_other _ _ _ _ (by decide), lookup_setHeader_self]
    rfl

theorem rejectResponse_headers (r : Nat) :
    (rejectResponse r).headers.lookup "X-RateLimit-Limit" = none
    ∧ (rejectResponse r).headers.lookup "X-RateLimit-Remaining" = none
    ∧ (rejectResponse r).headers.lookup "X-RateLimit-Reset" = none
    ∧ (((rejectResponse r).headers.lookup "Retry-After").isSome = true) :=
  ⟨rfl, rfl, rfl, rfl⟩

set_option maxRecDepth 4000 in
/-- C6 counterexample: the 101st request of a fresh window is answered with
status 429, and that response carries none of the three informational
rate-limit headers — refuting the claim that every response under `/api/`
carries them. -/
theorem rateLimit_headers_counterexample :
    (middleware (c6Run 100) "/api/gemini" (some "1.2.3.4") 0).2.status = 429
    ∧ (middleware (c6Run 100) "/api/gemini" (some "1.2.3.4") 0).2.headers.lookup
        "X-RateLimit-Limit" = none
    ∧ (middleware (c6Run 100) "/api/gemini" (some "1.2.3.4") 0).2.headers.lookup
        "X-RateLimit-Remaining" = none
    ∧ (middleware (c6Run 100) "/api/gemini" (some "1.2.3.4") 0).2.headers.lookup
        "X-RateLimit-Reset" = none := by
  refine ⟨?_, ?_, ?_, ?_⟩ <;> decide

/-- C6 amended: under the `/api/` prefix, every allowed (pass-through)
response carries the headers `X-RateLimit-Limit`, `X-RateLimit-Remaining`
and `X-RateLimit-Reset`; a 429 rejection carries none of them — its only
headers are `Content-Type` and `Retry-After`. -/
theorem rateLimit_headers_amended (m : IpRequestMap) (path : String)
    (reqIp : Option String) (now : Nat) (hApi : pathIsApi path = true) :
    ((middleware m path reqIp now).2.status = 200 →
      (((middleware m path reqIp now).2.headers.lookup
          "X-RateLimit-Limit").isSome = true)
      ∧ (((middleware m path reqIp now).2.headers.lookup
          "X-RateLimit-Remaining").isSome = true)
      ∧ (((middleware m path reqIp now).2.headers.lookup
          "X-RateLimit-Reset").isSome = true))
    ∧ ((middleware m path reqIp now).2.status = 429 →
      (middleware m path reqIp now).2.headers.lookup "X-RateLimit-Limit" = none
      ∧ (middleware m path reqIp now).2.headers.lookup
          "X-RateLimit-Remaining" = none
      ∧ (middleware m path reqIp now).2.headers.lookup "X-RateLimit-Reset" = none
      ∧ (((middleware m path reqIp now).2.headers.lookup
          "Retry-After").isSome = true)) := by
  have key : (∃ m' ip', (middleware m path reqIp now).2 = passResponse m' ip')
      ∨ (∃ r, (middleware m path reqIp now).2 = rejectResponse r) := by
    unfold middleware
    simp only [hApi, if_true]
    cases hl : m.lookup (reqIp.getD "127.0.0.1") with
    | none => exact Or.inl ⟨_, _, rfl⟩
    | some data =>
      by_cases h1 : data.resetTime < now
      · simp only [h1, if_true]
        exact Or.inl ⟨_, _, rfl⟩
      · simp only [h1, if_false]
        by_cases h2 : maxRequests ≤ data.count
        · simp only [h2, if_true]
          exact Or.inr ⟨_, rfl⟩
        · simp only [h2, if_false]
          exact Or.inl ⟨_, _, rfl⟩
  rcases key with ⟨m', ip', hp⟩ | ⟨r, hr⟩
  · rw [hp]
    refine ⟨fun _ => passResponse_headers m' ip', fun h => ?_⟩
    exact absurd h (by simp [passResponse])
  · rw [hr]
    refine ⟨fun h => ?_, fun _ => rejectResponse_headers r⟩
    exact absurd h (by simp [rejectResponse])

theorem rateLimit_headers_amended_witness :
    (pathIsApi "/api/gemini" = true)
    ∧ ((middleware [] "/api/gemini" (some "1.2.3.4") 0).2.status = 200 →
        (((middleware [] "/api/gemini" (some "1.2.3.4") 0).2.headers.lookup
            "X-RateLimit-Limit").isSome = true)
        ∧ (((middleware [] "/api/gemini" (some "1.2.3.4") 0).2.headers.lookup
            "X-RateLimit-Remaining").isSome = true)
        ∧ (((middleware [] "/api/gemini" (some "1.2.3.4") 0).2.headers.lookup
            "X-RateLimit-Reset").isSome = true))
    ∧ ((middleware [] "/api/gemini" (some "1.2.3.4") 0).2.status = 429 →
        (middleware [] "/api/gemini" (some "1.2.3.4") 0).2.headers.lookup
          "X-RateLimit-Limit" = none
        ∧ (middleware [] "/api/gemini" (some "1.2.3.4") 0).2.headers.lookup
            "X-RateLimit-Remaining" = none
        ∧ (middleware [] "/api/gemini" (some "1.2.3.4") 0).2.headers.lookup
            "X-RateLimit-Reset" = none
        ∧ (((middleware [] "/api/gemini" (some "1.2.3.4") 0).2.headers.lookup
            "Retry-After").isSome = true)) :=
  ⟨by decide,
   (rateLimit_headers_amended [] "/api/gemini" (some "1.2.3.4") 0 (by decide)).1,
   (rateLimit_headers_amended [] "/api/gemini" (some "1.2.3.4") 0 (by decide)).2⟩

theorem startQueueProcessing_inv (s : ClientState) (now : Nat)
    (h0 : s.inFlight = 0) : InFlightInv (startQueueProcessing s now) := by
  unfold startQueueProcessing
  split
  · exact ⟨by omega, fun h1 => absurd (h0 ▸ h1) (by omega)⟩
  · split
    · exact ⟨by omega, fun h1 => absurd (h0 ▸ h1) (by omega)⟩
    · split
      · refine ⟨?_, fun _ => rfl⟩
        show s.inFlight + 1 ≤ 1
        omega
      · refine ⟨?_, fun h1 => ?_⟩
        · show s.inFlight ≤ 1
          omega
        · have h1' : s.inFlight = 1 := h1
          exact absurd (h0 ▸ h1') (by omega)

theorem clientStep_inv (s : ClientState) (ev : ClientEv)
    (h : InFlightInv s) : InFlightInv (clientStep s ev) := by
  obtain ⟨hle, himp⟩ := h
  cases ev with
  | connectOk now => exact ⟨hle, himp⟩
  | connectFail now => exact ⟨hle, himp⟩
  | disconnect => exact ⟨hle, himp⟩
  | submit fd now =>
    show InFlightInv (clientSendVideoFrame s fd now)
    unfold clientSendVideoFrame
    by_cases hp : s.processingFrames = true
    · rw [if_pos hp]
      exact ⟨hle, fun _ => hp⟩
    · rw [if_neg hp]
      apply startQueueProcessing_inv
      show s.inFlight = 0
      rcases Nat.lt_or_ge s.inFlight 1 with hl | hg
      · omega
      · exact absurd (himp (by omega)) hp
  | complete now =>
    show InFlightInv (completeAnalysis s now)
    unfold completeAnalysis
    by_cases h0 : s.inFlight = 0
    · rw [if_pos h0]
      exact ⟨hle, himp⟩
    · rw [if_neg h0]
      apply startQueueProcessing_inv
      show s.inFlight - 1 = 0
      omega

theorem clientFoldl_inv :
    ∀ (evs : List ClientEv) (s : ClientState), InFlightInv s →
      InFlightInv (evs.foldl clientStep s)
  | [], _, h => h
  | e :: t, s, h => clientFoldl_inv t _ (clientStep_inv s e h)

theorem clientRun_inv (evs : List ClientEv) : InFlightInv (clientRun evs) :=
  clientFoldl_inv evs initialClientState
    ⟨by decide, fun h1 => absurd h1 (by decide)⟩

theorem submit_busy_calls (s : ClientState) (fd : List Char) (now : Nat)
    (hp : s.processingFrames = true) :
    clientStep s (.submit fd now)
      = { s with frameQueue := s.frameQueue ++ [extractImageData fd] } := by
  show clientSendVideoFrame s fd now = _
  unfold clientSendVideoFrame
  rw [if_pos hp]

theorem submits_while_busy (subs : List (List Char × Nat)) :
    ∀ s : ClientState, s.processingFrames = true →
      ((subs.foldl (fun t p => clientStep t (.submit p.1 p.2)) s).calls = s.calls
       ∧ (subs.foldl (fun t p => clientStep t (.submit p.1 p.2)) s).processingFrames
          = true
       ∧ (subs.foldl (fun t p => clientStep t (.submit p.1 p.2)) s).inFlight
          = s.inFlight) := by
  induction subs with
  | nil => exact fun s hp => ⟨rfl, hp, rfl⟩
  | cons p t ih =>
    intro s hp
    rw [List.foldl_cons, submit_busy_calls s p.1 p.2 hp]
    exact ih _ hp

theorem complete_calls_le (s : ClientState) (now : Nat) :
    (completeAnalysis s now).calls.length ≤ s.calls.length + 1 := by
  unfold completeAnalysis startQueueProcessing
  split
  · omega
  · split
    · show s.calls.length ≤ s.calls.length + 1
      omega
    · split
      · show s.calls.length ≤ s.calls.length + 1
        omega
      · split
        · show (s.calls ++ [_]).length ≤ s.calls.length + 1
          simp
        · show s.calls.length ≤ s.calls.length + 1
          omega

/-- C3: in every reachable client state at most one analysis is in flight;
a frame submission arriving while an analysis is in flight never starts a
remote call; and any number of submissions during one in-flight analysis
followed by its completion add at most one further analysis call. -/
theorem single_analysis_in_flight (evs : List ClientEv) :
    (clientRun evs).inFlight ≤ 1
    ∧ (∀ (fd : List Char) (now : Nat), (clientRun evs).inFlight = 1 →
        (clientStep (clientRun evs) (.submit fd now)).calls
          = (clientRun evs).calls)
    ∧ (∀ (subs : List (List Char × Nat)) (now : Nat),
        (clientRun evs).inFlight = 1 →
        (completeAnalysis
          (subs.foldl (fun t p => clientStep t (.submit p.1 p.2))
            (clientRun evs)) now).calls.length
          ≤ (clientRun evs).calls.length + 1) := by
  have hInv := clientRun_inv evs
  refine ⟨hInv.1, ?_, ?_⟩
  · intro fd now h1
    rw [submit_busy_calls _ fd now (hInv.2 h1)]
  · intro subs now h1
    have hb := submits_while_busy subs _ (hInv.2 h1)
    calc (completeAnalysis
          (subs.foldl (fun t p => clientStep t (.submit p.1 p.2))
            (clientRun evs)) now).calls.length
        ≤ (subs.foldl (fun t p => clientStep t (.submit p.1 p.2))
            (clientRun evs)).calls.length + 1 := complete_calls_le _ _
      _ = (clientRun evs).calls.length + 1 := by rw [hb.1]

theorem single_analysis_in_flight_witness :
    ((clientRun c3DemoEvs).inFlight = 1)
    ∧ (clientRun c3DemoEvs).inFlight ≤ 1
    ∧ (clientStep (clientRun c3DemoEvs) (.submit ['e'] 2500)).calls
        = (clientRun c3DemoEvs).calls
    ∧ (completeAnalysis
        (c3DemoSubs.foldl (fun t p => clientStep t (.submit p.1 p.2))
          (clientRun c3DemoEvs)) 2600).calls.length
        ≤ (clientRun c3DemoEvs).calls.length + 1 :=
  ⟨by decide,
   (single_analysis_in_flight c3DemoEvs).1,
   (single_analysis_in_flight c3DemoEvs).2.1 ['e'] 2500 (by decide),
   (single_analysis_in_flight c3DemoEvs).2.2 c3DemoSubs 2600 (by decide)⟩

/-- C4 counterexample: frame `b`, submitted at time 2500 while no analysis
is in flight but before the 2000 ms interval has elapsed, is NOT retained:
the queue is empty afterwards and the whole state is unchanged, and a later
eligible submission analyzes the new frame `c`, never `b` — refuting
"retained in the single-slot buffer and analyzed on the next eligible
submission". -/
theorem frame_retention_counterexample :
    c4State.processingFrames = false
    ∧ c4State.inFlight = 0
    ∧ c4State.frameQueue = []
    ∧ 2500 - c4State.lastAnalysisTime < analysisInterval
    ∧ clientStep c4State (.submit ['b'] 2500) = c4State
    ∧ (clientStep (clientStep c4State (.submit ['b'] 2500))
        (.submit ['c'] 5000)).calls = c4State.calls ++ [['c']] := by
  refine ⟨?_, ?_, ?_, ?_, ?_, ?_⟩ <;> decide

/-- C4 amended: a frame submitted while an analysis is in flight is
retained in the queue (last-write-wins at drain time) and is drained when
the in-flight analysis completes, being analyzed then exactly when the
cadence interval has elapsed by the completion; a frame submitted while
idle before the interval has elapsed is discarded immediately — the
submission leaves the state unchanged. -/
theorem frame_buffer_behavior (s : ClientState) (fd : List Char)
    (now now2 : Nat) :
    (s.processingFrames = true →
      clientStep s (.submit fd now)
        = { s with frameQueue := s.frameQueue ++ [extractImageData fd] })
    ∧ (s.processingFrames = false → s.frameQueue = [] →
        now - s.lastAnalysisTime < analysisInterval →
        clientStep s (.submit fd now) = s)
    ∧ (s.processingFrames = true → s.inFlight = 1 → s.frameQueue = [] →
        analysisInterval ≤ now2 - s.lastAnalysisTime →
        (completeAnalysis (clientStep s (.submit fd now)) now2).calls
          = s.calls ++ [extractImageData fd]) := by
  obtain ⟨conn, last, queue, proc, infl, calls⟩ := s
  refine ⟨fun hp => ?_, fun hp hq he => ?_, fun hp hi hq he => ?_⟩
  · exact submit_busy_calls _ fd now hp
  · simp only at hp hq
    subst hp
    subst hq
    unfold clientStep clientSendVideoFrame startQueueProcessing
    simp [Nat.not_le.mpr he]
  · simp only at hp hi hq
    subst hp
    subst hi
    subst hq
    unfold clientStep clientSendVideoFrame completeAnalysis startQueueProcessing
    simp [he]

theorem frame_buffer_behavior_witness :
    ((clientRun c3DemoEvs).processingFrames = true
      ∧ clientStep (clientRun c3DemoEvs) (.submit ['b'] 2100)
          = { clientRun c3DemoEvs with
              frameQueue := (clientRun c3DemoEvs).frameQueue ++ [['b']] })
    ∧ (c4State.processingFrames = false ∧ c4State.frameQueue = []
      ∧ 2500 - c4State.lastAnalysisTime < analysisInterval
      ∧ clientStep c4State (.submit ['b'] 2500) = c4State)
    ∧ ((completeAnalysis (clientStep (clientRun c3DemoEvs) (.submit ['b'] 2100))
        4200).calls = (clientRun c3DemoEvs).calls ++ [['b']]) :=
  ⟨⟨by decide,
    (frame_buffer_behavior (clientRun c3DemoEvs) ['b'] 2100 4200).1 (by decide)⟩,
   ⟨by decide, by decide, by decide,
    (frame_buffer_behavior c4State ['b'] 2500 4200).2.1 (by decide) (by decide)
      (by decide)⟩,
   (frame_buffer_behavior (clientRun c3DemoEvs) ['b'] 2100 4200).2.2 (by decide)
     (by decide) (by decide) (by decide)⟩

/-- C8 counterexample: a frame submitted directly to the client while it is
Disconnected DOES start a remote analysis call — `sendVideoFrame` and
`analyzeFrame` never consult the connection state — refuting "a frame
submitted while Disconnected is dropped and never produces a remote-model
request". -/
theorem frame_gating_counterexample :
    initialClientState.connected = false
    ∧ (clientStep initialClientState (.submit ['a'] 2000)).calls = [['a']]
    ∧ (clientStep initialClientState (.submit ['a'] 2000)).inFlight = 1 := by
  refine ⟨?_, ?_, ?_⟩ <;> decide

/-- C8 amended: the client's `sendVideoFrame` forwards an eligible frame to
the analyzer regardless of the connection state — the connected-gating
lives one layer up, in the capture component, whose `captureFrame` drops
the frame (submitting nothing) whenever the provider is not connected. -/
theorem frame_gating_amended (c : ClientState) (fd : List Char) (now : Nat)
    (video : Bool) (client : Option ClientState)
    (frameData : Option (List Char)) :
    (c.connected = false → c.processingFrames = false → c.frameQueue = [] →
      analysisInterval ≤ now - c.lastAnalysisTime →
      (clientStep c (.submit fd now)).calls = c.calls ++ [extractImageData fd])
    ∧ captureFrame video client false frameData now = none := by
  constructor
  · intro hconn hp hq he
    obtain ⟨conn, last, queue, proc, infl, calls⟩ := c
    simp only at hconn hp hq
    subst hconn
    subst hp
    subst hq
    unfold clientStep clientSendVideoFrame startQueueProcessing
    simp [he]
  · unfold captureFrame
    cases video with
    | false => rfl
    | true =>
      cases client with
      | none => rfl
      | some c' => rfl

theorem frame_gating_amended_witness :
    (initialClientState.connected = false
      ∧ analysisInterval ≤ 2000 - initialClientState.lastAnalysisTime
      ∧ (clientStep initialClientState (.submit ['a'] 2000)).calls
          = initialClientState.calls ++ [['a']])
    ∧ captureFrame true (some initialClientState) false (some ['a']) 2000
        = none :=
  ⟨⟨by decide, by decide,
    (frame_gating_amended initialClientState ['a'] 2000 true
      (some initialClientState) (some ['a'])).1 (by decide) (by decide)
      (by decide) (by decide)⟩,
   (frame_gating_amended initialClientState ['a'] 2000 true
      (some initialClientState) (some ['a'])).2⟩

/-- C9 counterexample: calling `disconnect()` on an already-Disconnected
client is not a no-op — it emits another `close` signal — refuting
"produces no additional observable signal". -/
theorem disconnect_idempotence_counterexample :
    initialClientState.connected = false
    ∧ (clientDisconnect initialClientState).2 = [ClientSignal.closeSig]
    ∧ (clientDisconnect initialClientState).2 ≠ [] := by
  refine ⟨rfl, rfl, by decide⟩

/-- C9 amended: `disconnect()` always transitions to Disconnected and emits
one `close` signal on every invocation, including when already
Disconnected — idempotent in state (a second call leaves the state fixed)
but re-emitting the signal; the provider's `disconnect` wrapper checks
`isConnected()` first and is a complete no-op when the client is not
connected. -/
theorem disconnect_behavior (s : ClientState) :
    (clientDisconnect s).1.connected = false
    ∧ (clientDisconnect s).2 = [ClientSignal.closeSig]
    ∧ (clientDisconnect (clientDisconnect s).1).1 = (clientDisconnect s).1
    ∧ (s.connected = false → providerDisconnect (some s) = (some s, [])) := by
  refine ⟨rfl, rfl, rfl, fun h => ?_⟩
  unfold providerDisconnect
  simp [h]

theorem disconnect_behavior_witness :
    initialClientState.connected = false
    ∧ providerDisconnect (some initialClientState)
        = (some initialClientState, []) :=
  ⟨rfl, (disconnect_behavior initialClientState).2.2.2 rfl⟩

/-- C7: provider-level `sendConfig` gating. Invoked while the session is
Disconnected (no client, or client not connected) it produces only a
warning signal — no `config` event with any payload is ever observable;
invoked while Connected it is observable as exactly one `config` event
carrying the exact payload supplied. -/
theorem sendConfig_gating (config : List Char) (c : ClientState) :
    (c.connected = false →
      (∀ p, ClientSignal.configSig p ∉ providerSendConfig (some c) config)
      ∧ ClientSignal.warnSig ∈ providerSendConfig (some c) config)
    ∧ (c.connected = true →
        providerSendConfig (some c) config = [ClientSignal.configSig config])
    ∧ (∀ p, ClientSignal.configSig p ∉ providerSendConfig none config) := by
  refine ⟨fun h => ?_, fun h => ?_, ?_⟩
  · unfold providerSendConfig
    simp [h]
  · unfold providerSendConfig
    simp [h, clientSendConfig]
  · unfold providerSendConfig
    simp

theorem sendConfig_gating_witness :
    (initialClientState.connected = false
      ∧ (∀ p, ClientSignal.configSig p
          ∉ providerSendConfig (some initialClientState) ['x'])
      ∧ ClientSignal.warnSig ∈ providerSendConfig (some initialClientState) ['x'])
    ∧ ({ initialClientState with connected := true }.connected = true
      ∧ providerSendConfig (some { initialClientState with connected := true })
          ['x'] = [ClientSignal.configSig ['x']]) :=
  ⟨⟨rfl, (sendConfig_gating ['x'] initialClientState).1 rfl⟩,
   ⟨rfl, (sendConfig_gating ['x']
      { initialClientState with connected := true }).2.1 rfl⟩⟩
